import Mathlib

/-!
Shallow embedding of `src/eca.py`, a minimal Event-Condition-Action rule
engine, together with theorems settling the specification claims.

Python values that can appear as event data, condition results, and scope
entries are embedded as the inductive `Val`.  Python floats appear in the
code base only through truthiness and equality-to-`False` tests, so they
are embedded as rationals, which agree with IEEE semantics on those tests
for all representable values.
-/

namespace Eca

/-- Embedded Python values. -/
inductive Val where
  | none
  | bool (b : Bool)
  | int (n : Int)
  | float (q : Rat)
  | str (s : String)
  | list (xs : List Val)
  | dict (xs : List (String × Val))

/-- Python truthiness (`bool(v)`): `None`, `False`, `0`, `0.0`, the empty
string, the empty list and the empty dict are falsy; everything else is
truthy. -/
def truthy : Val → Bool
  | .none => false
  | .bool b => b
  | .int n => n != 0
  | .float q => q != 0
  | .str s => s != ""
  | .list xs => !xs.isEmpty
  | .dict xs => !xs.isEmpty

/-- Python `v == False`: in Python, `False == False`, `0 == False` and
`0.0 == False` hold, while `None == False`, `"" == False`,
`[] == False` and `{} == False` do not.  This is the comparison performed
by `list.count(False)` on line 101 of `src/eca.py`. -/
def eqFalse : Val → Bool
  | .bool b => !b
  | .int n => n == 0
  | .float q => q == 0
  | _ => false

/-- `isinstance(v, collections.Mapping)`: only dicts are mappings among the
embedded values. -/
def isMapping : Val → Bool
  | .dict _ => true
  | _ => false

/-- Python exceptions raised by the embedded code: `assert` failures
(`Event.__init__` line 38), `KeyError` from dict lookup
(`Event.__getattr__` line 41), and the `NotImplementedError` raised by
`new_event` when no context is bound (line 140). -/
inductive PyErr where
  | assertionError
  | keyError (k : String)
  | notImplementedError
  deriving DecidableEq, Repr

/-- An `Event` after successful construction: a name and the attribute
mapping `data` (a dict, embedded as an association list). -/
structure Event where
  name : String
  data : List (String × Val)

/-- Embeds `Event.__init__` (lines 29-38): `self.name = name`,
`self.data = data or {}` followed by
`assert isinstance(self.data, collections.Mapping)`.  The `data` argument
defaults to `None` in the source; callers that omit it pass `Val.none`
here.  No validation of `name` is performed by the source. -/
def mkEvent (name : String) (data : Val) : Except PyErr Event :=
  let d := if truthy data then data else Val.dict []
  match d with
  | .dict xs => .ok ⟨name, xs⟩
  | _ => .error .assertionError

/-- Embeds `Event.__getattr__` (lines 40-41): `return self.data[name]`,
raising `KeyError` when the key is absent from the dict. -/
def Event.getattr (e : Event) (a : String) : Except PyErr Val :=
  match e.data.lookup a with
  | some v => .ok v
  | Option.none => .error (.keyError a)

/-- A context scope (`util.NamespaceDict`): a mutable namespace mapping
names to values.  Conditions and actions receive it opaquely. -/
def Scope : Type := List (String × Val)

/-- A registered rule as seen by the dispatch loop: the function object
(with its identity `id`), the `events` attribute (a set of event names)
and the `conditions` attribute (an ordered list of condition callables,
each receiving the scope and the event and returning a Python value). -/
structure Rule where
  id : Nat
  events : List String
  conditions : List (Scope → Event → Val)

/-- Line 97 of `src/eca.py`:
`candidates = [r for r in rules if event.name in r.events]`.
`rules` is a Python `set`, whose iteration order is unspecified and in
particular not tied to insertion order, so the dispatch step is
parameterized by the enumeration order `R` in which the set yields its
elements. -/
def candidates (R : List Rule) (e : Event) : List Rule :=
  R.filter (fun r => r.events.contains e.name)

/-- The list comprehension `[c(self.scope, event) for c in r.conditions]`
on line 101: every condition is evaluated with `(scope, event)`, in
order, with no short-circuiting. -/
def condResults (s : Scope) (e : Event) (r : Rule) : List Val :=
  r.conditions.map (fun c => c s e)

/-- `[...].count(False)` on line 101: the number of condition results that
compare equal to `False`. -/
def countFalse (vs : List Val) : Nat :=
  vs.countP (fun v => eqFalse v)

/-- The condition evaluations the dispatch step performs for an event:
line 101 evaluates conditions only inside the `for r in candidates` loop
(line 100), so exactly the candidate rules have their condition lists
evaluated. -/
def evalTrace (R : List Rule) (s : Scope) (e : Event) : List (Rule × List Val) :=
  (candidates R e).map (fun r => (r, condResults s e r))

/-- Lines 97-103 of `src/eca.py`: the rules whose actions are invoked for
a dequeued event, in the order the loop invokes them.  A candidate rule
is invoked iff `not [c(...) for c in r.conditions].count(False)` holds,
i.e. iff the count of condition results comparing equal to `False` is
zero. -/
def handleOne (R : List Rule) (s : Scope) (e : Event) : List Rule :=
  (candidates R e).filter (fun r => countFalse (condResults s e r) == 0)

/-- The outcome of running a block of code that reads and writes the
thread-local current-context binding (`thread_local.context`, an optional
context identified here by a `Nat`): either the block completes normally
or it raises, and in both cases the binding has some final value. -/
inductive Outcome where
  | ok (tls : Option Nat)
  | exn (tls : Option Nat)
  deriving DecidableEq, Repr

/-- Embeds `context_switch` (lines 110-129 of `src/eca.py`).  The
generator stashes the old binding, sets `thread_local.context` to the new
context and yields; the restore on line 129 is written after the `yield`
with no `try`/`finally`, so under `@contextmanager` it runs only when the
`with` body completes normally.  When the body raises, the exception is
thrown into the generator at the `yield`, is not caught there, and the
restore statement never executes: the binding is left as the body left
it.  On normal exit line 129 unconditionally assigns the stashed value,
whatever the body did to the binding. -/
def context_switch (c : Nat) (body : Option Nat → Outcome) (tls : Option Nat) : Outcome :=
  let old := tls
  match body (some c) with
  | .ok _ => .ok old
  | .exn t => .exn t

/-- Embeds `Context.receive_event` (lines 68-71): `event_queue.put(event)`
appends the event at the tail of the FIFO queue of context `c`; the
queues of all contexts are modelled as a map from context identifier to
queue contents. -/
def receive_event (c : Nat) (ev : Event) (q : Nat → List Event) : Nat → List Event :=
  fun x => if x = c then q x ++ [ev] else q x

/-- Embeds `new_event` (lines 132-141): first constructs
`Event(eventname, data)`, then raises `NotImplementedError` if no context
is bound in thread-local storage, and otherwise delivers the event to the
bound context via `receive_event`.  Returns the exception raised, if any,
together with the state of every queue after the call. -/
def new_event (eventname : String) (data : Val) (tls : Option Nat)
    (q : Nat → List Event) : Except PyErr Unit × (Nat → List Event) :=
  match mkEvent eventname data with
  | .error err => (.error err, q)
  | .ok e =>
    match tls with
    | Option.none => (.error .notImplementedError, q)
    | some c => (.ok (), receive_event c e q)

/-- The `conditions` and `events` attributes attached to a function object
by the registration decorators: an ordered list of condition identities
and a set of event names (insertion order recorded but not meaningful). -/
structure RuleAttrs where
  conditions : List Nat
  events : List String
  deriving DecidableEq, Repr

/-- The registration state: the global `rules` set (line 21 of
`src/eca.py`), modelled as its elements in insertion order — the Python
`set` does not expose this order to iteration — together with the
`conditions`/`events` attributes carried by each function object
(`Option.none` when the object has never been prepared).  Function
objects are identified by `Nat`, standing for Python object identity. -/
structure RegState where
  rules : List Nat
  attrs : Nat → Option RuleAttrs

/-- Embeds `prepare_action` (lines 144-154):
the two getattr-with-default assignments to `fn.conditions` and
`fn.events` keep existing attributes and
install empty ones on first contact; `rules.add(fn)` inserts the function
into the set, a no-op when it is already a member. -/
def prepare_action (a : Nat) (s : RegState) : RegState :=
  { rules := if a ∈ s.rules then s.rules else s.rules ++ [a]
    attrs := fun x => if x = a then some ((s.attrs a).getD ⟨[], []⟩) else s.attrs x }

/-- Embeds the `condition` decorator (lines 157-174): `prepare_action(fn)`
followed by `fn.conditions.append(c)`, mutating the condition list of the
single registry entry for `fn`. -/
def condition (c : Nat) (a : Nat) (s : RegState) : RegState :=
  let s1 := prepare_action a s
  { s1 with
    attrs := fun x =>
      if x = a then (s1.attrs x).map (fun r => ⟨r.conditions ++ [c], r.events⟩)
      else s1.attrs x }

/-- Embeds the `event` decorator (lines 177-191): `prepare_action(fn)`
followed by `fn.events.add(eventname)`, adding the name to the set of
event names of the single registry entry for `fn`. -/
def event (n : String) (a : Nat) (s : RegState) : RegState :=
  let s1 := prepare_action a s
  { s1 with
    attrs := fun x =>
      if x = a then
        (s1.attrs x).map
          (fun r => ⟨r.conditions, if n ∈ r.events then r.events else r.events ++ [n]⟩)
      else s1.attrs x }

/-- One registration call referencing an action: either a condition
attachment or an event-name attachment. -/
inductive RegCall where
  | cond (c : Nat)
  | ev (n : String)

/-- Applies one registration call to action `a`. -/
def applyCall (a : Nat) (s : RegState) : RegCall → RegState
  | .cond c => condition c a s
  | .ev n => event n a s

/-- Applies a finite sequence of registration calls to action `a`, in
order. -/
def applyCalls (a : Nat) (cs : List RegCall) (s : RegState) : RegState :=
  cs.foldl (applyCall a) s

/-- The effect of one registration call on the attributes of the entry it
mutates. -/
def stepAttrs (r : RuleAttrs) : RegCall → RuleAttrs
  | .cond c => ⟨r.conditions ++ [c], r.events⟩
  | .ev n => ⟨r.conditions, if n ∈ r.events then r.events else r.events ++ [n]⟩

/-! Helper lemmas shared by the claim theorems. -/

lemma mem_handleOne_iff (R : List Rule) (s : Scope) (e : Event) (r : Rule) :
    r ∈ handleOne R s e ↔
      r ∈ candidates R e ∧ ∀ v ∈ condResults s e r, eqFalse v = false := by
  simp [handleOne, List.mem_filter, countFalse, List.countP_eq_zero]

lemma mem_candidates_iff (R : List Rule) (e : Event) (r : Rule) :
    r ∈ candidates R e ↔ r ∈ R ∧ e.name ∈ r.events := by
  simp [candidates, List.mem_filter]

/-- Claim C1: for every event dequeued by a Context and every registry, the
candidate set computed on line 97 is exactly the set of registered rules
whose events set contains the event name; a rule whose events set is
empty, or does not contain the name, is never a candidate, and the
dispatch step evaluates no condition of such a rule. -/
theorem candidate_set_eq (R : List Rule) (s : Scope) (e : Event) (r : Rule) :
    (r ∈ candidates R e ↔ r ∈ R ∧ e.name ∈ r.events) ∧
    (r.events = [] → r ∉ candidates R e) ∧
    (e.name ∉ r.events → ∀ p ∈ evalTrace R s e, p.1 ≠ r) := by
  refine ⟨mem_candidates_iff R e r, ?_, ?_⟩
  · intro h hc
    rcases (mem_candidates_iff R e r).1 hc with ⟨-, hev⟩
    rw [h] at hev
    exact absurd hev (List.not_mem_nil _)
  · intro hnot p hp
    simp only [evalTrace, List.mem_map] at hp
    rcases hp with ⟨r0, hr0, rfl⟩
    intro heq
    dsimp at heq
    subst heq
    exact hnot ((mem_candidates_iff R e r0).1 hr0).2

/-- Witness for C1 at a concrete registry: the rule with an empty events
set is not a candidate for the event and none of its conditions appear in
the evaluation trace. -/
theorem candidate_set_eq_witness :
    ((⟨2, [], []⟩ : Rule) ∉ candidates [⟨1, ["e"], []⟩, ⟨2, [], []⟩] ⟨"e", []⟩) ∧
    (∀ p ∈ evalTrace [⟨1, ["e"], []⟩, ⟨2, [], []⟩] ([] : Scope) ⟨"e", []⟩,
      p.1 ≠ (⟨2, [], []⟩ : Rule)) := by
  have h := candidate_set_eq [⟨1, ["e"], []⟩, ⟨2, [], []⟩] ([] : Scope) ⟨"e", []⟩ ⟨2, [], []⟩
  exact ⟨h.2.1 rfl, h.2.2 (by simp)⟩

/-- Claim C2: for every candidate rule, the dispatch step evaluates every
condition with the scope and the event (the evaluation trace records the
full list of results, one per condition); when all conditions return
booleans, the action is invoked iff all of them return true; a candidate
with zero conditions is always invoked; any single condition returning
false prevents invocation. -/
theorem conditions_gate_action (R : List Rule) (s : Scope) (e : Event) (r : Rule)
    (hc : r ∈ candidates R e) :
    ((r, condResults s e r) ∈ evalTrace R s e) ∧
    (condResults s e r).length = r.conditions.length ∧
    ((∀ v ∈ condResults s e r, ∃ b, v = Val.bool b) →
      (r ∈ handleOne R s e ↔ ∀ v ∈ condResults s e r, v = Val.bool true)) ∧
    (r.conditions = [] → r ∈ handleOne R s e) ∧
    (∀ v ∈ condResults s e r, v = Val.bool false → r ∉ handleOne R s e) := by
  refine ⟨?_, ?_, ?_, ?_, ?_⟩
  · simp only [evalTrace, List.mem_map]
    exact ⟨r, hc, rfl⟩
  · simp [condResults]
  · intro hb
    rw [mem_handleOne_iff]
    constructor
    · rintro ⟨-, hall⟩ v hv
      rcases hb v hv with ⟨b, rfl⟩
      have h := hall (Val.bool b) hv
      simpa [eqFalse] using h
    · intro hall
      refine ⟨hc, fun v hv => ?_⟩
      rw [hall v hv]
      rfl
  · intro h0
    rw [mem_handleOne_iff]
    exact ⟨hc, by simp [condResults, h0]⟩
  · intro v hv hfalse hmem2
    rcases (mem_handleOne_iff R s e r).1 hmem2 with ⟨-, hall⟩
    have h := hall v hv
    rw [hfalse] at h
    simp [eqFalse] at h

/-- Witness for C2: a candidate rule whose single condition returns true
has its action invoked. -/
theorem conditions_gate_action_witness :
    (⟨1, ["x"], [fun _ _ => Val.bool true]⟩ : Rule) ∈
      handleOne [⟨1, ["x"], [fun _ _ => Val.bool true]⟩] ([] : Scope) ⟨"x", []⟩ := by
  have h := conditions_gate_action [⟨1, ["x"], [fun _ _ => Val.bool true]⟩] ([] : Scope)
      ⟨"x", []⟩ ⟨1, ["x"], [fun _ _ => Val.bool true]⟩ (by simp [candidates])
  refine (h.2.2.1 ?_).2 ?_
  · intro v hv
    simp only [condResults, List.map_cons, List.map_nil, List.mem_singleton] at hv
    exact ⟨true, hv⟩
  · intro v hv
    simp only [condResults, List.map_cons, List.map_nil, List.mem_singleton] at hv
    exact hv

/-- Claim C9: the dispatch step blocks a rule only on condition results
that compare equal to False under Python equality (False, 0, 0.0); a
candidate rule none of whose condition results compare equal to False is
invoked, even when some results are other falsy values such as None or
the empty string, which do not compare equal to False. -/
theorem falsy_results_do_not_block (R : List Rule) (s : Scope) (e : Event) (r : Rule)
    (hc : r ∈ candidates R e)
    (h : ∀ v ∈ condResults s e r, eqFalse v = false) :
    r ∈ handleOne R s e ∧
    eqFalse Val.none = false ∧
    eqFalse (Val.str "") = false ∧
    eqFalse (Val.bool false) = true ∧
    eqFalse (Val.int 0) = true ∧
    eqFalse (Val.float 0) = true := by
  refine ⟨(mem_handleOne_iff R s e r).2 ⟨hc, h⟩, rfl, rfl, rfl, ?_, ?_⟩
  · decide
  · simp [eqFalse]

/-- Witness for C9: a candidate rule whose conditions return None and the
empty string — both falsy, neither comparing equal to False — is still
invoked. -/
theorem falsy_results_do_not_block_witness :
    (⟨3, ["x"], [fun _ _ => Val.none, fun _ _ => Val.str ""]⟩ : Rule) ∈
      handleOne [⟨3, ["x"], [fun _ _ => Val.none, fun _ _ => Val.str ""]⟩]
        ([] : Scope) ⟨"x", []⟩ ∧
    eqFalse Val.none = false ∧
    eqFalse (Val.str "") = false ∧
    eqFalse (Val.bool false) = true ∧
    eqFalse (Val.int 0) = true ∧
    eqFalse (Val.float 0) = true := by
  refine falsy_results_do_not_block _ _ _ _ (by simp [candidates]) ?_
  intro v hv
  simp only [condResults, List.map_cons, List.map_nil, List.mem_cons,
    List.mem_singleton, List.not_mem_nil, or_false] at hv
  rcases hv with rfl | rfl <;> rfl

/-- Claim C7: attribute lookup on an Event fails with the key-lookup error
for every attribute name absent from the data mapping, and returns the
mapped value for every name present in it. -/
theorem getattr_spec (e : Event) (a : String) :
    (e.data.lookup a = Option.none → e.getattr a = .error (.keyError a)) ∧
    (∀ v, e.data.lookup a = some v → e.getattr a = .ok v) := by
  constructor
  · intro h
    simp [Event.getattr, h]
  · intro v h
    simp [Event.getattr, h]

/-- Witness for C7: on a concrete event, an absent attribute fails and a
present one returns its value. -/
theorem getattr_spec_witness :
    (Event.getattr ⟨"x", [("u", Val.int 1)]⟩ "v" = .error (.keyError "v")) ∧
    (Event.getattr ⟨"x", [("u", Val.int 1)]⟩ "u" = .ok (Val.int 1)) :=
  ⟨(getattr_spec ⟨"x", [("u", Val.int 1)]⟩ "v").1 rfl,
   (getattr_spec ⟨"x", [("u", Val.int 1)]⟩ "u").2 (Val.int 1) rfl⟩

/-- Counterexample to C8 as stated: constructing an Event with an empty
name succeeds — the constructor performs no validation of the name. -/
theorem event_empty_name_accepted : mkEvent "" Val.none = .ok ⟨"", []⟩ := rfl

/-- Claim C8, amended: Event construction accepts any name, the empty name
included (the constructor validates only the data), and when no attribute
mapping is supplied (the data argument defaults to None) the constructed
event carries the empty mapping. -/
theorem event_default_data_empty (name : String) :
    mkEvent name Val.none = .ok ⟨name, []⟩ := rfl

/-- Claim C10: construction with a truthy non-mapping data argument fails
with an assertion error; with a falsy data argument it succeeds with the
empty mapping; with a mapping it succeeds carrying that mapping — so
construction succeeds exactly when the data that ends up on the event is
a mapping. -/
theorem event_data_must_be_mapping (name : String) (d : Val) :
    (truthy d = true → isMapping d = false → mkEvent name d = .error .assertionError) ∧
    (truthy d = false → mkEvent name d = .ok ⟨name, []⟩) ∧
    (∀ xs, d = .dict xs → mkEvent name d = .ok ⟨name, xs⟩) := by
  refine ⟨?_, ?_, ?_⟩
  · intro ht hm
    cases d <;> simp_all [mkEvent, truthy, isMapping]
  · intro ht
    simp [mkEvent, ht]
  · rintro xs rfl
    by_cases h : truthy (Val.dict xs) = true
    · simp [mkEvent, h]
    · have hx : xs = [] := by
        simpa [truthy, List.isEmpty_iff] using h
      subst hx
      simp [mkEvent, truthy]

/-- Witness for C10: a list is truthy but not a mapping, so construction
fails; a falsy string yields the empty mapping; a dict is carried over. -/
theorem event_data_must_be_mapping_witness :
    mkEvent "x" (Val.list [Val.int 1]) = .error .assertionError ∧
    mkEvent "x" (Val.str "") = .ok ⟨"x", []⟩ ∧
    mkEvent "x" (Val.dict [("k", Val.int 2)]) = .ok ⟨"x", [("k", Val.int 2)]⟩ :=
  ⟨(event_data_must_be_mapping "x" (Val.list [Val.int 1])).1 rfl rfl,
   (event_data_must_be_mapping "x" (Val.str "")).2.1 rfl,
   (event_data_must_be_mapping "x" (Val.dict [("k", Val.int 2)])).2.2 _ rfl⟩

/-- Counterexample to C3 as stated: a nested context switch whose body
raises does not restore the previous binding.  With the outer binding at
context 0, entering a switch to context 1 whose body raises leaves the
thread-local binding at context 1, not at the stashed context 0, because
the restore after the yield is not protected by try/finally and never
runs on the exceptional path. -/
theorem context_switch_exception_counterexample :
    context_switch 1 (fun t => Outcome.exn t) (some 0) = Outcome.exn (some 1) ∧
    Outcome.exn (some 1) ≠ Outcome.exn (some 0) := by
  exact ⟨rfl, by decide⟩

/-- Claim C3, amended: exiting a context-switch scope normally restores
the binding that was in effect when the scope was entered, exactly and
unconditionally (even if the body moved the binding elsewhere); but on an
exit path raised by an exception inside the body the binding is not
restored and keeps whatever value the body left. -/
theorem context_switch_restores_on_normal_exit (c : Nat) (body : Option Nat → Outcome)
    (tls t : Option Nat) (h : body (some c) = Outcome.ok t) :
    context_switch c body tls = Outcome.ok tls := by
  unfold context_switch
  rw [h]

/-- Witness for C3 (amended): a nested switch — outer binding at context
1, inner switch to context 2 — restores the outer binding on normal exit
even though the inner body left the binding moved to context 9. -/
theorem context_switch_restores_witness :
    context_switch 2 (fun _ => Outcome.ok (some 9)) (some 1) = Outcome.ok (some 1) :=
  context_switch_restores_on_normal_exit 2 (fun _ => Outcome.ok (some 9)) (some 1) (some 9) rfl

/-- Claim C5: when no context is bound for the calling thread, the
emission function fails and leaves every queue unchanged — with the
no-current-context error whenever event construction itself succeeds —
and when a context is bound and construction succeeds, it appends the
freshly constructed event at the tail of exactly that context's queue,
leaving every other queue unchanged, and returns success (no matching or
action runs as part of the call). -/
theorem new_event_spec (name : String) (d : Val) (tls : Option Nat) (q : Nat → List Event) :
    (tls = Option.none →
      (∃ err, (new_event name d tls q).1 = .error err) ∧ (new_event name d tls q).2 = q) ∧
    (tls = Option.none → ∀ ev, mkEvent name d = .ok ev →
      (new_event name d tls q).1 = .error .notImplementedError) ∧
    (∀ c ev, tls = some c → mkEvent name d = .ok ev →
      (new_event name d tls q).1 = .ok () ∧
      (new_event name d tls q).2 c = q c ++ [ev] ∧
      ∀ x, x ≠ c → (new_event name d tls q).2 x = q x) := by
  refine ⟨?_, ?_, ?_⟩
  · rintro rfl
    cases h : mkEvent name d with
    | error err => exact ⟨⟨err, by simp [new_event, h]⟩, by simp [new_event, h]⟩
    | ok e => exact ⟨⟨.notImplementedError, by simp [new_event, h]⟩, by simp [new_event, h]⟩
  · rintro rfl ev h
    simp [new_event, h]
  · rintro c ev rfl h
    refine ⟨by simp [new_event, h], by simp [new_event, h, receive_event], ?_⟩
    intro x hx
    simp [new_event, h, receive_event, hx]

/-- Witness for C5: with no bound context the call fails with the
no-current-context error, and with context 0 bound the event lands at the
tail of the queue of context 0 while the queue of context 1 stays empty. -/
theorem new_event_spec_witness :
    (new_event "x" Val.none Option.none (fun _ => [])).1 = .error .notImplementedError ∧
    (new_event "x" Val.none (some 0) (fun _ => [])).2 0 = [⟨"x", []⟩] ∧
    (new_event "x" Val.none (some 0) (fun _ => [])).2 1 = [] := by
  have h1 := (new_event_spec "x" Val.none Option.none (fun _ => [])).2.1 rfl ⟨"x", []⟩ rfl
  have h2 := (new_event_spec "x" Val.none (some 0) (fun _ => [])).2.2 0 ⟨"x", []⟩ rfl rfl
  exact ⟨h1, by simpa using h2.2.1, by simpa using h2.2.2 1 (by decide)⟩

/-- Counterexample to C6 as stated: the global rules registry is an
unordered set, so the dispatch loop may enumerate it in an order other
than registration order.  With rules registered in the order
(rule 1, rule 2) but the set enumerated as (rule 2, rule 1) — a
permutation of the same elements, hence a possible set iteration — the
dispatch of a matching event invokes rule 2 before rule 1, breaking the
tie against registration order. -/
theorem dispatch_order_counterexample :
    ([⟨2, ["e"], []⟩, ⟨1, ["e"], []⟩] : List Rule).Perm [⟨1, ["e"], []⟩, ⟨2, ["e"], []⟩] ∧
    handleOne [⟨2, ["e"], []⟩, ⟨1, ["e"], []⟩] ([] : Scope) ⟨"e", []⟩
      = [⟨2, ["e"], []⟩, ⟨1, ["e"], []⟩] ∧
    ([⟨2, ["e"], []⟩, ⟨1, ["e"], []⟩] : List Rule) ≠ [⟨1, ["e"], []⟩, ⟨2, ["e"], []⟩] := by
  refine ⟨List.Perm.swap _ _ _, rfl, ?_⟩
  intro h
  have h2 := congrArg (fun l => l.map Rule.id) h
  simp at h2

/-- Claim C6, amended: for a given enumeration order of the rules registry
the invocation order is fully determined — it is exactly that enumeration
restricted to the matching rules, hence a sublist of it — but the
registry is an unordered set, so the enumeration order, and with it the
tie-breaking between matching rules, is not guaranteed to follow
registration order. -/
theorem dispatch_order_deterministic (R : List Rule) (s : Scope) (e : Event) :
    handleOne R s e
      = R.filter (fun r => r.events.contains e.name && (countFalse (condResults s e r) == 0)) ∧
    (handleOne R s e).Sublist R := by
  constructor
  · simp only [handleOne, candidates, List.filter_filter]
    congr 1
    funext r
    rw [Bool.and_comm]
  · have h1 : (handleOne R s e).Sublist (candidates R e) := List.filter_sublist _
    have h2 : (candidates R e).Sublist R := List.filter_sublist _
    exact h1.trans h2

lemma prepare_action_rules_fresh {a : Nat} {s : RegState} (h : a ∉ s.rules) :
    (prepare_action a s).rules = s.rules ++ [a] := by
  simp [prepare_action, h]

lemma prepare_action_rules_mem {a : Nat} {s : RegState} (h : a ∈ s.rules) :
    (prepare_action a s).rules = s.rules := by
  simp [prepare_action, h]

lemma prepare_action_attrs (a : Nat) (s : RegState) :
    (prepare_action a s).attrs a = some ((s.attrs a).getD ⟨[], []⟩) := by
  simp [prepare_action]

lemma applyCall_rules (a : Nat) (s : RegState) (k : RegCall) :
    (applyCall a s k).rules = (prepare_action a s).rules := by
  cases k <;> rfl

lemma applyCall_attrs (a : Nat) (s : RegState) (k : RegCall) :
    (applyCall a s k).attrs a = some (stepAttrs ((s.attrs a).getD ⟨[], []⟩) k) := by
  cases k <;> simp [applyCall, condition, event, prepare_action, stepAttrs]

lemma applyCall_mem (a : Nat) (s : RegState) (k : RegCall) :
    a ∈ (applyCall a s k).rules := by
  rw [applyCall_rules]
  by_cases h : a ∈ s.rules
  · rw [prepare_action_rules_mem h]
    exact h
  · rw [prepare_action_rules_fresh h]
    simp

lemma applyCall_count_mem (a : Nat) (s : RegState) (k : RegCall) (h : a ∈ s.rules) :
    (applyCall a s k).rules.count a = s.rules.count a := by
  rw [applyCall_rules, prepare_action_rules_mem h]

lemma applyCall_count_fresh (a : Nat) (s : RegState) (k : RegCall) (h : a ∉ s.rules) :
    (applyCall a s k).rules.count a = 1 := by
  rw [applyCall_rules, prepare_action_rules_fresh h, List.count_append,
    List.count_eq_zero.2 h]
  simp

lemma applyCalls_registered (a : Nat) (cs : List RegCall) :
    ∀ (s : RegState) (r : RuleAttrs), a ∈ s.rules → s.attrs a = some r →
      (applyCalls a cs s).rules.count a = s.rules.count a ∧
      (applyCalls a cs s).attrs a = some (cs.foldl stepAttrs r) := by
  induction cs with
  | nil =>
      intro s r h1 h2
      exact ⟨rfl, by simpa [applyCalls] using h2⟩
  | cons k ks ih =>
      intro s r h1 h2
      have hstep : applyCalls a (k :: ks) s = applyCalls a ks (applyCall a s k) := rfl
      have ha : (applyCall a s k).attrs a = some (stepAttrs r k) := by
        rw [applyCall_attrs, h2]
        rfl
      have hrest := ih (applyCall a s k) (stepAttrs r k) (applyCall_mem a s k) ha
      constructor
      · rw [hstep, hrest.1, applyCall_count_mem a s k h1]
      · rw [hstep, hrest.2]
        rfl

/-- Claim C4: for every action and every finite, non-empty sequence of
registration calls (condition and/or event attachments, in any order and
multiplicity) referencing it, starting from a state in which the action
is unregistered and carries no attributes: the rules registry ends up
with exactly one entry for the action; the preparation performed by the
first call installs an empty condition list and an empty event-name set;
and every call mutates that single entry, so the final attributes are the
fold of the per-call mutations over the initially empty attributes. -/
theorem registration_single_entry (s0 : RegState) (a : Nat) (k : RegCall) (cs : List RegCall)
    (h1 : a ∉ s0.rules) (h2 : s0.attrs a = Option.none) :
    (applyCalls a (k :: cs) s0).rules.count a = 1 ∧
    (prepare_action a s0).attrs a = some ⟨[], []⟩ ∧
    (applyCall a s0 k).attrs a = some (stepAttrs ⟨[], []⟩ k) ∧
    (applyCalls a (k :: cs) s0).attrs a = some (cs.foldl stepAttrs (stepAttrs ⟨[], []⟩ k)) := by
  have hattr1 : (applyCall a s0 k).attrs a = some (stepAttrs ⟨[], []⟩ k) := by
    rw [applyCall_attrs, h2]
    rfl
  have hrest := applyCalls_registered a cs (applyCall a s0 k) (stepAttrs ⟨[], []⟩ k)
    (applyCall_mem a s0 k) hattr1
  have hstep : applyCalls a (k :: cs) s0 = applyCalls a cs (applyCall a s0 k) := rfl
  refine ⟨?_, ?_, hattr1, ?_⟩
  · rw [hstep, hrest.1, applyCall_count_fresh a s0 k h1]
  · rw [prepare_action_attrs, h2]
    rfl
  · rw [hstep, hrest.2]

/-- Witness for C4: registering an event name, then a condition, then the
same event name again for action 7, from the empty state, leaves exactly
one registry entry for action 7, holding one condition and one event
name. -/
theorem registration_single_entry_witness :
    (applyCalls 7 [RegCall.ev "e", RegCall.cond 5, RegCall.ev "e"]
      ⟨[], fun _ => Option.none⟩).rules.count 7 = 1 ∧
    (applyCalls 7 [RegCall.ev "e", RegCall.cond 5, RegCall.ev "e"]
      ⟨[], fun _ => Option.none⟩).attrs 7 = some ⟨[5], ["e"]⟩ := by
  have h := registration_single_entry ⟨[], fun _ => Option.none⟩ 7 (RegCall.ev "e")
    [RegCall.cond 5, RegCall.ev "e"] (by simp) rfl
  refine ⟨h.1, ?_⟩
  rw [h.2.2.2]
  rfl

end Eca
